import Mathlib

/-!
Verification development for the `aezpz` schema-registry client
(`src/aezpz/schema.py`).  Python strings are modelled as `List Char`,
JSON documents as an inductive `JVal` with insertion-ordered association
lists for objects, and the HTTP transport as an explicit function
argument; every operation that can issue requests also returns the list
of requests it made.  Fallible Python code (exceptions and assertions)
is modelled with `Except String`.
-/

namespace Aezpz

/-- Convert a Lean string literal to the `List Char` model of Python strings. -/
def cs (s : String) : List Char := s.data

/-- Python `s.split(c)` for a single-character separator: splits on every
occurrence, keeping empty segments (so `"".split('.') == ['']`). -/
def splitc (c : Char) : List Char → List (List Char)
  | [] => [[]]
  | x :: xs =>
    match splitc c xs with
    | s :: ss => if x = c then [] :: s :: ss else (x :: s) :: ss
    | [] => if x = c then [[], []] else [[x]]

/-- Python `sep.join(parts)` for a single-character separator. -/
def interc (c : Char) : List (List Char) → List Char
  | [] => []
  | [s] => s
  | s :: s2 :: rest => s ++ c :: interc c (s2 :: rest)

/-- The suffix of `s` after the first occurrence of `pat`, if any
(the last element of Python `s.split(pat, 1)` when `pat` occurs). -/
def dropAfter (pat : List Char) : List Char → Option (List Char)
  | [] => none
  | x :: xs =>
    if pat.isPrefixOf (x :: xs) then some ((x :: xs).drop pat.length)
    else dropAfter pat xs

/-- Python `s.split(pat, 1)[-1]`: the part after the first occurrence of
`pat`, or the whole string when `pat` does not occur. -/
def afterFirst (pat : List Char) (s : List Char) : List Char :=
  (dropAfter pat s).getD s

/-- The five resource kinds of the registry (`ResourceType` in the source). -/
inductive ResourceType where
  | DATA_TYPE
  | FIELD_GROUP
  | SCHEMA
  | CLASS
  | BEHAVIOR
  deriving DecidableEq, Repr

/-- REST path segment of each kind (`ResourceType.path`). -/
def ResourceType.path : ResourceType → List Char
  | .DATA_TYPE => cs "datatypes"
  | .FIELD_GROUP => cs "fieldgroups"
  | .SCHEMA => cs "schemas"
  | .CLASS => cs "classes"
  | .BEHAVIOR => cs "behaviors"

/-- Kind-alias vocabulary (`ResourceType.from_name`): legacy and current
spellings map to the same kind; unknown names give `none`. -/
def ResourceType.from_name (s : List Char) : Option ResourceType :=
  if s = cs "mixins" then some .FIELD_GROUP
  else if s = cs "fieldgroups" then some .FIELD_GROUP
  else if s = cs "schemas" then some .SCHEMA
  else if s = cs "classes" then some .CLASS
  else if s = cs "datatypes" then some .DATA_TYPE
  else if s = cs "data" then some .BEHAVIOR
  else if s = cs "behaviors" then some .BEHAVIOR
  else none

/-- Storage container of a resource. -/
inductive Container where
  | global
  | tenant
  deriving DecidableEq, Repr

/-- Name of a container as used in REST paths. -/
def Container.name : Container → List Char
  | .global => cs "global"
  | .tenant => cs "tenant"

/-- A parsed reference (`SchemaRef` in the source): `id` is the short id
(`meta:altId`), `ref` the canonical `$id` URL. -/
structure SchemaRef where
  container : Container
  resource : ResourceType
  tenant : Option (List Char)
  uuid : List Char
  id : List Char
  ref : List Char
  deriving DecidableEq, Repr

/-- The global-resource lookup table (contents of `globals.json`, loaded
once at startup): maps a dotted key to the kind name and canonical ref. -/
abbrev Table := List (List Char × List Char × List Char)

/-- Association-list lookup used for the global table. -/
def tlookup : Table → List Char → Option (List Char × List Char)
  | [], _ => none
  | (k, v) :: rest, key => if k = key then some v else tlookup rest key

/-- Normalization step of `SchemaRef.__init__`: strip an `http(s)` scheme
and split on `/` (dropping a leading `ns.adobe.com` host segment), or
strip a leading `_` and split on `.`; otherwise fail. -/
def normalize (ref : List Char) : Except String (List (List Char)) :=
  if (cs "http://").isPrefixOf ref ∨ (cs "https://").isPrefixOf ref then
    let rest := afterFirst (cs "://") ref
    let split := splitc '/' rest
    match split with
    | s :: tl => if s = cs "ns.adobe.com" then .ok tl else .ok split
    | [] => .ok split
  else if (cs "_").isPrefixOf ref then
    .ok (splitc '.' (ref.drop 1))
  else
    .error "unable to parse ref"

/-- The reference parser (`SchemaRef.__init__`): normalize, require more
than one segment, consult the global table, else require the
three-segment tenant pattern with a known kind alias. -/
def parse (tbl : Table) (ref : List Char) : Except String SchemaRef := do
  let split ← normalize ref
  if split.length > 1 then
    let uuid := interc '.' split
    match tlookup tbl uuid with
    | some (resName, r) =>
      match ResourceType.from_name resName with
      | some res =>
        .ok { container := .global, resource := res, tenant := none,
              uuid := uuid, id := '_' :: uuid, ref := r }
      | none => .error "assert resource is not None"
    | none =>
      match split with
      | [t, k, u] =>
        match ResourceType.from_name k with
        | some res =>
          .ok { container := .tenant, resource := res, tenant := some t,
                uuid := u, id := '_' :: uuid,
                ref := cs "https://ns.adobe.com/" ++ interc '/' [t, k, u] }
        | none => .error "unable to parse ref"
      | _ => .error "unable to parse ref"
  else
    .error "assert len(split) > 1"

/-! JSON documents.  Python dicts are insertion-ordered association
lists with unique keys; `update` and `setdefault` reproduce the dict
semantics used by the source. -/

/-- A JSON value: string, object (insertion-ordered), or array. -/
inductive JVal where
  | str : List Char → JVal
  | obj : List (List Char × JVal) → JVal
  | arr : List JVal → JVal
  deriving Repr

instance : Inhabited JVal := ⟨.obj []⟩

/-- A JSON object body. -/
abbrev Obj := List (List Char × JVal)

/-- Shorthand for a JSON string value from a literal. -/
def jstr (s : String) : JVal := .str (cs s)

/-- Lookup of a key in an object (first occurrence, like a Python dict). -/
def olookup : Obj → List Char → Option JVal
  | [], _ => none
  | (k, v) :: rest, key => if k = key then some v else olookup rest key

/-- Python `key in d`. -/
def hasKey (o : Obj) (key : List Char) : Bool := (olookup o key).isSome

/-- Python `d[key] = v`: replace the first binding of `key`, else append. -/
def setKey : Obj → List Char → JVal → Obj
  | [], key, v => [(key, v)]
  | (k, w) :: rest, key, v =>
    if k = key then (k, v) :: rest else (k, w) :: setKey rest key v

/-- Python `d.update(r)`: set each binding of `r` in order. -/
def updateObj (o r : Obj) : Obj := r.foldl (fun acc kv => setKey acc kv.1 kv.2) o

/-- Python `d.setdefault(key, v)` (the resulting dict). -/
def setdefaultObj (o : Obj) (key : List Char) (v : JVal) : Obj :=
  if hasKey o key then o else o ++ [(key, v)]

/-! Path and header builders, and the request records handed to the
transport. -/

/-- `get_resource_path(container, resource, id)`. -/
def get_resource_path (container : Container) (resource : ResourceType)
    (id : Option (List Char)) : List Char :=
  cs "/data/foundation/schemaregistry/" ++ container.name ++ cs "/" ++ resource.path
    ++ (match id with | some i => '/' :: i | none => [])

/-- `get_accept_header(xed, xed_version)`: the Accept header value. -/
def get_accept_header (xed : Option (List Char)) (xed_version : Option Nat) : List Char :=
  (match xed with
   | none => cs "application/vnd.adobe.xed+json"
   | some x => cs "application/vnd.adobe.xed-" ++ x ++ cs "+json")
  ++ (match xed_version with
      | some n => cs "; version=" ++ cs (toString n)
      | none => [])

/-- One HTTP request issued through `Api.request`, as observed by the
transport. -/
structure Request where
  method : String
  path : List Char
  accept : List Char
  params : List (List Char × List Char)
  jsonBody : Option JVal
  deriving Repr

/-! The `Resource` base class.  The transport is modelled by passing the
parsed JSON the server would answer (`Option Obj`, `none` for an empty
response body, exactly as `Api.request` returns); each operation also
returns the requests it issued. -/

/-- A typed resource wrapping one (possibly partial) JSON document. -/
structure Resource where
  type : ResourceType
  body : Obj
  id : List Char
  ref : List Char
  uuid : List Char
  tenant : Option (List Char)
  container : Container
  deriving Repr

/-- `Resource.__init__` from a `SchemaRef` (body holds only the `$id`);
the variant dispatch `ref.init(api)` passes the matching static kind, and
`__init__` asserts it equals the parsed kind. -/
def Resource.ofRef (t : ResourceType) (r : SchemaRef) : Except String Resource :=
  if t = r.resource then
    .ok { type := t, body := [(cs "$id", .str r.ref)], id := r.id, ref := r.ref,
          uuid := r.uuid, tenant := r.tenant, container := r.container }
  else .error "Mismatched resource type"

/-- `Resource.__init__` from a fetched JSON record: re-parse the body's
`$id` and keep the record as the body. -/
def Resource.ofDict (tbl : Table) (t : ResourceType) (v : JVal) : Except String Resource :=
  match v with
  | .obj record =>
    match olookup record (cs "$id") with
    | some (.str s) => do
      let r ← parse tbl s
      if t = r.resource then
        .ok { type := t, body := record, id := r.id, ref := r.ref,
              uuid := r.uuid, tenant := r.tenant, container := r.container }
      else .error "Mismatched resource type"
    | _ => .error "body has no $id"
  | _ => .error "body is not a dict"

/-- `Resource.request`: build the request; when the transport answers
with a JSON body, check its `$id` and `meta:altId` against this resource
and merge it into the in-memory body. -/
def Resource.request (res : Resource) (method : String) (full : Bool)
    (js : Option JVal) (resp : Option Obj) : Except String (Resource × Request) :=
  let req : Request :=
    { method := method,
      path := get_resource_path res.container res.type (some res.id),
      accept := get_accept_header (if full then some (cs "full") else none) (some 1),
      params := [], jsonBody := js }
  match resp with
  | none => .ok (res, req)
  | some r =>
    match olookup r (cs "$id"), olookup r (cs "meta:altId") with
    | some (.str a), some (.str b) =>
      if a = res.ref ∧ b = res.id then
        .ok ({ res with body := updateObj res.body r }, req)
      else .error "response id mismatch"
    | _, _ => .error "response id mismatch"

/-- The one-operation JSON patch sent by the `title`/`description` setters. -/
def patchBody (path : String) (v : JVal) : JVal :=
  .arr [.obj [(cs "op", jstr "replace"), (cs "path", .str (cs path)), (cs "value", v)]]

/-- The `title` setter: a single PATCH carrying the one-operation patch. -/
def Resource.set_title (res : Resource) (v : JVal) (resp : Option Obj) :
    Except String (Resource × Request) :=
  res.request "PATCH" false (some (patchBody "/title" v)) resp

/-- The `description` setter. -/
def Resource.set_description (res : Resource) (v : JVal) (resp : Option Obj) :
    Except String (Resource × Request) :=
  res.request "PATCH" false (some (patchBody "/description" v)) resp

/-- The `properties` accessor: full-fidelity fetch when the key is absent,
then `setdefault` an empty map and return it.  Also returns the updated
resource and the requests issued. -/
def Resource.properties (res : Resource) (resp : Option Obj) :
    Except String (JVal × Resource × List Request) := do
  let (res1, reqs) ←
    if hasKey res.body (cs "properties") then pure (res, ([] : List Request))
    else do
      let (r1, rq) ← res.request "GET" true none resp
      pure (r1, [rq])
  let b := setdefaultObj res1.body (cs "properties") (.obj [])
  match olookup b (cs "properties") with
  | some v => pure (v, { res1 with body := b }, reqs)
  | none => .error "unreachable"

/-! The `definitions` accessor and its merge loop. -/

/-- Resolution of one `allOf` entry (the loop body of
`Resource.definitions`): a local `#/definitions/<name>` reference is
dereferenced, anything else contributes its own `properties` (default
empty).  `b` is the document body holding the `definitions` map. -/
def resolveEntry (b : Obj) (v : JVal) : Except String Obj := do
  let record ← match v with
    | .obj o => pure o
    | _ => .error "allOf entry is not a dict"
  let refv ← match olookup record (cs "$ref") with
    | some (.str s) => pure s
    | some _ => .error "$ref is not a string"
    | none => pure []
  let definition ←
    if (cs "#").isPrefixOf refv then do
      if hasKey record (cs "properties") then
        .error "unexpected properties and $ref definition"
      else if ¬ (cs "#/definitions/").isPrefixOf refv then
        .error "unexpected non-definitions reference"
      else
        let field := refv.drop (cs "#/definitions/").length
        if field.contains '/' then .error "unexpected nested definition reference"
        else
          let defs ← match olookup b (cs "definitions") with
            | some (.obj d) => pure d
            | none => pure ([] : Obj)
            | some _ => .error "definitions is not a dict"
          match olookup defs field with
          | some (.obj dobj) =>
            if hasKey dobj (cs "properties") then pure dobj
            else .error "expected definition to be an object"
          | some _ => .error "expected definition to be an object"
          | none => .error "reference to missing definition"
    else pure record
  match olookup definition (cs "properties") with
  | some (.obj p) => pure p
  | none => pure ([] : Obj)
  | some _ => .error "properties is not a dict"

/-- The accumulation loop of `Resource.definitions`: insert each
contributed property, failing on the first key collision. -/
def insertAll (acc : Obj) : Obj → Except String Obj
  | [] => .ok acc
  | (k, v) :: rest =>
    if hasKey acc k then .error "unhandled merging of definitions"
    else insertAll (acc ++ [(k, v)]) rest

/-- Iteration of `Resource.definitions` over the `allOf` list. -/
def mergeAllOf (b : Obj) : List JVal → Obj → Except String Obj
  | [], acc => .ok acc
  | v :: rest, acc => do
    let props ← resolveEntry b v
    let acc2 ← insertAll acc props
    mergeAllOf b rest acc2

/-- The `definitions` accessor: fetch when `allOf` is absent, default it
to an empty list, then merge. -/
def Resource.definitions (res : Resource) (resp : Option Obj) :
    Except String (Obj × Resource × List Request) := do
  let (res1, reqs) ←
    if hasKey res.body (cs "allOf") then pure (res, ([] : List Request))
    else do
      let (r1, rq) ← res.request "GET" false none resp
      pure (r1, [rq])
  let b := setdefaultObj res1.body (cs "allOf") (.arr [])
  match olookup b (cs "allOf") with
  | some (.arr l) => do
    let props ← mergeAllOf b l []
    pure (props, { res1 with body := b }, reqs)
  | _ => .error "allOf is not a list"

/-! The `extends` relationship and the `behavior` / `field_groups`
accessors shared by `Schema` and `Class`. -/

/-- The `extends` accessor: parse every string of `meta:extends` and
construct the matching typed resource for each. -/
def Resource.extends_list (tbl : Table) (res : Resource) (resp : Option Obj) :
    Except String (List Resource × Resource × List Request) := do
  let (res1, reqs) ←
    if hasKey res.body (cs "meta:extends") then pure (res, ([] : List Request))
    else do
      let (r1, rq) ← res.request "GET" false none resp
      pure (r1, [rq])
  let b := setdefaultObj res1.body (cs "meta:extends") (.arr [])
  match olookup b (cs "meta:extends") with
  | some (.arr l) => do
    let exts ← l.mapM (fun v => do
      match v with
      | .str s => do
        let r ← parse tbl s
        Resource.ofRef r.resource r
      | _ => .error "meta:extends entry is not a string")
    pure (exts, { res1 with body := b }, reqs)
  | _ => .error "meta:extends is not a list"

/-- `Schema.behavior` / `Class.behavior`: exactly one `extends` entry of
kind Behavior. -/
def Resource.behavior (tbl : Table) (res : Resource) (resp : Option Obj) :
    Except String Resource := do
  let (exts, _, _) ← res.extends_list tbl resp
  match exts.filter (fun r => r.type = ResourceType.BEHAVIOR) with
  | [b] => pure b
  | _ => .error "assert len(behaviors) == 1"

/-- `Schema.field_groups` / `Class.field_groups`: all `extends` entries
of kind FieldGroup. -/
def Resource.field_groups (tbl : Table) (res : Resource) (resp : Option Obj) :
    Except String (List Resource) := do
  let (exts, _, _) ← res.extends_list tbl resp
  pure (exts.filter (fun r => r.type = ResourceType.FIELD_GROUP))

/-! Resource collections, pagination and `findall`. -/

/-- A collection (`ResourceCollection`): a container scope and the set
of kinds it operates over. -/
structure ResourceCollection where
  container : Option Container
  resources : List ResourceType
  deriving Repr

/-- `ResourceCollection.__init__`: an empty kind list means all five kinds. -/
def mkCollection (container : Option Container) (resources : List ResourceType) :
    ResourceCollection :=
  { container := container,
    resources :=
      if resources = [] then
        [.DATA_TYPE, .FIELD_GROUP, .SCHEMA, .CLASS, .BEHAVIOR]
      else resources }

/-- `ResourceCollection.containers`: the container scope, tenant first
when unscoped. -/
def ResourceCollection.containers (c : ResourceCollection) : List Container :=
  match c.container with
  | some x => [x]
  | none => [.tenant, .global]

/-- `ResourceCollection.get`: parse the reference, require its kind to be
allowed, and construct the typed resource; no request is issued. -/
def ResourceCollection.get (tbl : Table) (c : ResourceCollection) (s : List Char) :
    Except String (Resource × List Request) := do
  let r ← parse tbl s
  if r.resource ∈ c.resources then do
    let res ← Resource.ofRef r.resource r
    pure (res, [])
  else .error "assert ref.resource in self.resources"

/-- The comma-joined `key==value` property filter of `_paginate`. -/
def mkParams (query : List (List Char × List Char)) : List (List Char × List Char) :=
  if query = [] then []
  else [(cs "property", interc ',' (query.map (fun kv => kv.1 ++ cs "==" ++ kv.2)))]

/-- A transport for listing requests: maps the query parameters to the
parsed JSON page the server answers. -/
abbrev Serve := List (List Char × List Char) → Obj

/-- Python `params[key] = v` on the string-valued query-parameter dict. -/
def setParam : List (List Char × List Char) → List Char → List Char →
    List (List Char × List Char)
  | [], key, v => [(key, v)]
  | (k, w) :: rest, key, v =>
    if k = key then (k, v) :: rest else (k, w) :: setParam rest key v

/-- Lookup in the query-parameter dict. -/
def lookupParam : List (List Char × List Char) → List Char → Option (List Char)
  | [], _ => none
  | (k, v) :: rest, key => if k = key then some v else lookupParam rest key

/-- The `while more` loop of `_paginate`, with explicit fuel standing for
loop iterations (the source loops until the cursor is absent). -/
def paginateLoop (serve : Serve) (path accept : List Char) :
    Nat → List (List Char × List Char) → List JVal → List Request →
    Except String (List JVal × List Request)
  | 0, _, _, _ => .error "out of fuel"
  | fuel + 1, params, records, trace => do
    let r := serve params
    let req : Request := { method := "GET", path := path, accept := accept,
                           params := params, jsonBody := none }
    let results ← match olookup r (cs "results") with
      | some (.arr l) => pure l
      | _ => .error "no results"
    let page ← match olookup r (cs "_page") with
      | some (.obj p) => pure p
      | _ => .error "no _page"
    match olookup page (cs "next") with
    | some (.str nxt) =>
      paginateLoop serve path accept fuel (setParam params (cs "start") nxt)
        (records ++ results) (trace ++ [req])
    | some _ => .error "next is not a string"
    | none => .ok (records ++ results, trace ++ [req])

/-- `ResourceCollection._paginate`. -/
def paginate (serve : Serve) (fuel : Nat) (container : Container)
    (resource : ResourceType) (full : Bool) (query : List (List Char × List Char)) :
    Except String (List JVal × List Request) :=
  paginateLoop serve (get_resource_path container resource none)
    (get_accept_header (if full then some (cs "full") else none) none)
    fuel (mkParams query) [] []

/-- Inner loop of `findall` over the containers of one kind. -/
def findallGo2 (tbl : Table) (serveF : ResourceType → Container → Serve) (fuel : Nat)
    (full : Bool) (query : List (List Char × List Char)) (rt : ResourceType) :
    List Container → List Resource → List Request →
    Except String (List Resource × List Request)
  | [], acc, tr => .ok (acc, tr)
  | ct :: cts, acc, tr => do
    let (records, reqs) ← paginate (serveF rt ct) fuel ct rt full query
    let ws ← records.mapM (Resource.ofDict tbl rt)
    findallGo2 tbl serveF fuel full query rt cts (acc ++ ws) (tr ++ reqs)

/-- Outer loop of `findall` over the allowed kinds. -/
def findallGo1 (tbl : Table) (serveF : ResourceType → Container → Serve) (fuel : Nat)
    (full : Bool) (query : List (List Char × List Char)) (cts : List Container) :
    List ResourceType → List Resource → List Request →
    Except String (List Resource × List Request)
  | [], acc, tr => .ok (acc, tr)
  | rt :: rts, acc, tr => do
    let (acc2, tr2) ← findallGo2 tbl serveF fuel full query rt cts acc tr
    findallGo1 tbl serveF fuel full query cts rts acc2 tr2

/-- `ResourceCollection.findall`: all pages of all allowed kinds in all
scoped containers, each record wrapped as a typed resource. -/
def findall (tbl : Table) (serveF : ResourceType → Container → Serve) (fuel : Nat)
    (c : ResourceCollection) (full : Bool) (query : List (List Char × List Char)) :
    Except String (List Resource × List Request) :=
  findallGo1 tbl serveF fuel full query c.containers c.resources [] []

/-! Specification-side definitions, written from the spec's wording, to
be compared with the source-derived definitions above. -/

/-- An entry's own `properties` map, defaulting to empty (spec wording). -/
def ownProps (o : Obj) : Option Obj :=
  match olookup o (cs "properties") with
  | some (.obj p) => some p
  | none => some []
  | some _ => none

/-- Spec wording of one `allOf` entry's contribution: an entry whose
`$ref` starts with `#` must be `#/definitions/<name>` with no nested
path and no sibling `properties` key, and `<name>` must exist in the
body's `definitions` map with a `properties` key, in which case that
target's properties are used; any other entry contributes its own
properties (default empty). -/
def entrySpec (b : Obj) (v : JVal) : Option Obj :=
  match v with
  | .obj record =>
    match olookup record (cs "$ref") with
    | some (.str r) =>
      if (cs "#").isPrefixOf r then
        if (cs "#/definitions/").isPrefixOf r
            ∧ ¬ (r.drop (cs "#/definitions/").length).contains '/'
            ∧ ¬ hasKey record (cs "properties") then
          match olookup b (cs "definitions") with
          | some (.obj d) =>
            match olookup d (r.drop (cs "#/definitions/").length) with
            | some (.obj t) =>
              if hasKey t (cs "properties") then ownProps t else none
            | _ => none
          | _ => none
        else none
      else ownProps record
    | some _ => none
    | none => ownProps record
  | _ => none

/-- Resolve every `allOf` entry in list order (spec wording), failing as
soon as one entry is invalid. -/
def entriesSpec (b : Obj) : List JVal → Option (List Obj)
  | [] => some []
  | v :: rest => (entrySpec b v).bind (fun p => (entriesSpec b rest).map (p :: ·))

/-- Spec wording of the whole `definitions` merge: resolve every entry,
accumulate the results in list order, and fail when any property key is
contributed more than once; with disjoint keys, return their union. -/
def definitionsSpec (b : Obj) : Option Obj :=
  match olookup b (cs "allOf") with
  | some (.arr l) =>
    (entriesSpec b l).bind (fun ps =>
      let all := ps.flatten
      if (all.map Prod.fst).Nodup then some all else none)
  | _ => none

/-- A cursor-driven page server, as the spec describes the listing
endpoint: the `start` cursor determines the page (results, next cursor). -/
abbrev PageFun := Option (List Char) → List JVal × Option (List Char)

/-- Encode a page as the listing response JSON
`{ "results": [...], "_page": { "next": cursor-or-absent } }`. -/
def pageObj (page : List JVal × Option (List Char)) : Obj :=
  [(cs "results", .arr page.1),
   (cs "_page", .obj (match page.2 with
     | some s => [(cs "next", .str s)]
     | none => []))]

/-- Follow a cursor chain for at most `fuel` pages: the concatenated
results in page order, and the sequence of `start` cursors used. -/
def chainFrom (f : PageFun) : Nat → Option (List Char) → Option (List JVal × List (Option (List Char)))
  | 0, _ => none
  | fuel + 1, c =>
    let page := f c
    match page.2 with
    | none => some (page.1, [c])
    | some s => (chainFrom f fuel (some s)).map (fun p => (page.1 ++ p.1, c :: p.2))

/-- The query parameters of the request issued with cursor `st`. -/
def applyStart (p : List (List Char × List Char)) : Option (List Char) → List (List Char × List Char)
  | none => p
  | some s => setParam p (cs "start") s

/-- The (kind, container) pairs `findall` iterates, in iteration order. -/
def collPairs (c : ResourceCollection) : List (ResourceType × Container) :=
  (c.resources.map (fun rt => c.containers.map (fun ct => (rt, ct)))).flatten

/-- Spec wording of one (kind, container) listing: follow the cursor
chain from no cursor, wrap every record as a typed resource, and issue
one request per page at the listing path, the property filters joined
into one parameter and the `start` parameter following the cursors. -/
def expectedPair (tbl : Table) (f : ResourceType → Container → PageFun) (fuel : Nat)
    (full : Bool) (query : List (List Char × List Char)) (p : ResourceType × Container) :
    Except String (List Resource × List Request) :=
  match chainFrom (f p.1 p.2) fuel none with
  | none => .error "out of fuel"
  | some (rs, starts) => do
    let ws ← rs.mapM (Resource.ofDict tbl p.1)
    .ok (ws, starts.map (fun st =>
      { method := "GET", path := get_resource_path p.2 p.1 none,
        accept := get_accept_header (if full then some (cs "full") else none) none,
        params := applyStart (mkParams query) st, jsonBody := none }))

/-- The canonical URL form rebuilt from three segments. -/
def mkCanon (t k u : List Char) : List Char :=
  cs "https://ns.adobe.com/" ++ interc '/' [t, k, u]

/-- Forget the error message of a fallible computation. -/
def eOpt {α : Type} : Except String α → Option α
  | .ok a => some a
  | .error _ => none

/-- Resolve every (kind, container) pair in iteration order through
`expectedPair`, failing as soon as one pair does. -/
def expectedAll (tbl : Table) (f : ResourceType → Container → PageFun) (fuel : Nat)
    (full : Bool) (query : List (List Char × List Char)) :
    List (ResourceType × Container) →
    Except String (List (List Resource × List Request))
  | [] => .ok []
  | p :: rest => do
    let o ← expectedPair tbl f fuel full query p
    let os ← expectedAll tbl f fuel full query rest
    .ok (o :: os)

/-! Concrete fixtures used to instantiate the theorems. -/

/-- A freshly constructed tenant schema (body holds only the `$id`). -/
def res0 : Resource :=
  { type := .SCHEMA, body := [(cs "$id", jstr "https://ns.adobe.com/t/schemas/u")],
    id := cs "_t.schemas.u", ref := cs "https://ns.adobe.com/t/schemas/u",
    uuid := cs "u", tenant := some (cs "t"), container := .tenant }

/-- A server response document for `res0` carrying a title and description. -/
def r0 : Obj :=
  [(cs "$id", jstr "https://ns.adobe.com/t/schemas/u"),
   (cs "meta:altId", jstr "_t.schemas.u"),
   (cs "title", jstr "T"), (cs "description", jstr "D")]

/-- A server response document for `res0` with no `properties` key. -/
def r1 : Obj :=
  [(cs "$id", jstr "https://ns.adobe.com/t/schemas/u"),
   (cs "meta:altId", jstr "_t.schemas.u"),
   (cs "version", jstr "1.0")]

/-- A class document whose `meta:extends` resolves to one behavior and
one field group. -/
def res2 : Resource :=
  { type := .CLASS, body :=
      [(cs "$id", jstr "https://ns.adobe.com/t/classes/c"),
       (cs "meta:extends", .arr [jstr "https://ns.adobe.com/xdm/data/record",
                                 jstr "_t.mixins.m"])],
    id := cs "_t.classes.c", ref := cs "https://ns.adobe.com/t/classes/c",
    uuid := cs "c", tenant := some (cs "t"), container := .tenant }

/-- A class document whose `meta:extends` resolves to no behavior. -/
def res3 : Resource :=
  { type := .CLASS, body :=
      [(cs "$id", jstr "https://ns.adobe.com/t/classes/c"),
       (cs "meta:extends", .arr [jstr "_t.mixins.m"])],
    id := cs "_t.classes.c", ref := cs "https://ns.adobe.com/t/classes/c",
    uuid := cs "c", tenant := some (cs "t"), container := .tenant }

/-- The resolved `extends` list of `res2`. -/
def ext2 : List Resource :=
  [{ type := .BEHAVIOR, body := [(cs "$id", jstr "https://ns.adobe.com/xdm/data/record")],
     id := cs "_xdm.data.record", ref := cs "https://ns.adobe.com/xdm/data/record",
     uuid := cs "record", tenant := some (cs "xdm"), container := .tenant },
   { type := .FIELD_GROUP, body := [(cs "$id", jstr "https://ns.adobe.com/t/mixins/m")],
     id := cs "_t.mixins.m", ref := cs "https://ns.adobe.com/t/mixins/m",
     uuid := cs "m", tenant := some (cs "t"), container := .tenant }]

/-- The resolved `extends` list of `res3`. -/
def ext3 : List Resource :=
  [{ type := .FIELD_GROUP, body := [(cs "$id", jstr "https://ns.adobe.com/t/mixins/m")],
     id := cs "_t.mixins.m", ref := cs "https://ns.adobe.com/t/mixins/m",
     uuid := cs "m", tenant := some (cs "t"), container := .tenant }]

/-- A schema document whose `allOf` mixes an inline entry and a local
`#/definitions` reference, with disjoint property keys. -/
def res4 : Resource :=
  { type := .SCHEMA, body :=
      [(cs "$id", jstr "https://ns.adobe.com/t/schemas/u"),
       (cs "allOf", .arr
         [.obj [(cs "properties", .obj [(cs "a", jstr "1")])],
          .obj [(cs "$ref", jstr "#/definitions/d1")]]),
       (cs "definitions", .obj
         [(cs "d1", .obj [(cs "properties", .obj [(cs "b", jstr "2")])])])],
    id := cs "_t.schemas.u", ref := cs "https://ns.adobe.com/t/schemas/u",
    uuid := cs "u", tenant := some (cs "t"), container := .tenant }

/-- A schema document whose two `allOf` entries both declare property `x`. -/
def res5 : Resource :=
  { type := .SCHEMA, body :=
      [(cs "$id", jstr "https://ns.adobe.com/t/schemas/u"),
       (cs "allOf", .arr
         [.obj [(cs "properties", .obj [(cs "x", jstr "1")])],
          .obj [(cs "properties", .obj [(cs "x", jstr "2")])]])],
    id := cs "_t.schemas.u", ref := cs "https://ns.adobe.com/t/schemas/u",
    uuid := cs "u", tenant := some (cs "t"), container := .tenant }

/-- A listing record with the given uuid under the witness tenant. -/
def docW (u : String) : Obj :=
  [(cs "$id", jstr ("https://ns.adobe.com/t/schemas/" ++ u))]

/-- A three-page cursor-linked mock listing with page sizes 2, 2, 1. -/
def fW : ResourceType → Container → PageFun := fun _ _ st =>
  if st = none then ([.obj (docW "u1"), .obj (docW "u2")], some (cs "c1"))
  else if st = some (cs "c1") then ([.obj (docW "u3"), .obj (docW "u4")], some (cs "c2"))
  else ([.obj (docW "u5")], none)

/-- The transport serving the mock listing. -/
def serveW : ResourceType → Container → Serve := fun rt ct params =>
  pageObj (fW rt ct (lookupParam params (cs "start")))

/-- A tenant-scoped schema collection for the witness. -/
def collW : ResourceCollection := { container := some .tenant, resources := [.SCHEMA] }

/-- The expected per-pair output of `findall` on the mock listing. -/
def outsW : List (List Resource × List Request) :=
  (eOpt (expectedAll [] fW 3 false [] (collPairs collW))).getD []

/-! Lemmas about the string model. -/

theorem splitc_ne_nil (c : Char) (s : List Char) : splitc c s ≠ [] := by
  induction s with
  | nil => simp [splitc]
  | cons x xs ih =>
    cases h : splitc c xs with
    | nil => exact absurd h ih
    | cons a as =>
      by_cases hx : x = c <;> simp [splitc, h, hx]

theorem splitc_not_mem {c : Char} {a : List Char} (h : c ∉ a) : splitc c a = [a] := by
  induction a with
  | nil => rfl
  | cons x xs ih =>
    have hx : x ≠ c := fun e => h (by simp [e])
    have hxs : c ∉ xs := fun e => h (by simp [e])
    simp [splitc, ih hxs, hx]

theorem splitc_append {c : Char} {a : List Char} (b : List Char) (h : c ∉ a) :
    splitc c (a ++ c :: b) = a :: splitc c b := by
  induction a with
  | nil =>
    cases hb : splitc c b with
    | nil => exact absurd hb (splitc_ne_nil c b)
    | cons s ss => simp [splitc, hb]
  | cons x xs ih =>
    have hx : x ≠ c := fun e => h (by simp [e])
    have hxs : c ∉ xs := fun e => h (by simp [e])
    simp [splitc, ih hxs, hx]

theorem interc_splitc (c : Char) (s : List Char) : interc c (splitc c s) = s := by
  induction s with
  | nil => rfl
  | cons x xs ih =>
    cases h : splitc c xs with
    | nil => exact absurd h (splitc_ne_nil c xs)
    | cons s1 ss =>
      by_cases hx : x = c
      · subst hx
        have e1 : splitc x (x :: xs) = [] :: s1 :: ss := by
          simp [splitc, h]
        rw [e1]
        show [] ++ x :: interc x (s1 :: ss) = x :: xs
        rw [List.nil_append, ← h, ih]
      · have e1 : splitc c (x :: xs) = (x :: s1) :: ss := by
          simp [splitc, h, hx]
        rw [e1]
        cases ss with
        | nil =>
          show x :: s1 = x :: xs
          rw [h] at ih
          simp only [interc] at ih
          rw [ih]
        | cons s2 ss2 =>
          show (x :: s1) ++ c :: interc c (s2 :: ss2) = x :: xs
          rw [h] at ih
          rw [List.cons_append,
            show s1 ++ c :: interc c (s2 :: ss2) = interc c (s1 :: s2 :: ss2) from rfl, ih]

theorem splitc_length_pos (c : Char) (s : List Char) : 1 ≤ (splitc c s).length := by
  cases h : splitc c s with
  | nil => exact absurd h (splitc_ne_nil c s)
  | cons a as => simp

theorem splitc_length_ge_two {c : Char} {s : List Char} (h : c ∈ s) :
    2 ≤ (splitc c s).length := by
  induction s with
  | nil => cases h
  | cons x xs ih =>
    cases hs : splitc c xs with
    | nil => exact absurd hs (splitc_ne_nil c xs)
    | cons a as =>
      by_cases hx : x = c
      · simp only [splitc, hs, if_pos hx]
        simp
      · have hm : c ∈ xs := by
          cases List.mem_cons.mp h with
          | inl he => exact absurd he.symm hx
          | inr hm2 => exact hm2
        have h2 := ih hm
        rw [hs] at h2
        simp only [splitc, hs, if_neg hx]
        simp at h2 ⊢
        omega

theorem mem_interc_of_length {c : Char} {l : List (List Char)} (h : 2 ≤ l.length) :
    c ∈ interc c l := by
  match l, h with
  | a :: b :: rest, _ =>
    simp [interc]

/-! Lemmas about the reference parser. -/

theorem from_name_clean {k : List Char} {r : ResourceType}
    (h : ResourceType.from_name k = some r) : '.' ∉ k ∧ '/' ∉ k := by
  unfold ResourceType.from_name at h
  split_ifs at h with h1 h2 h3 h4 h5 h6 h7
  all_goals injection h with hr
  all_goals subst hr
  all_goals subst_vars
  all_goals decide

theorem afterFirst_scheme (x : List Char) :
    afterFirst (cs "://") (cs "https://" ++ x) = x := by
  show afterFirst (cs "://") ('h' :: 't' :: 't' :: 'p' :: 's' :: ':' :: '/' :: '/' :: x) = x
  simp [afterFirst, dropAfter, List.isPrefixOf, cs]

theorem isPre_https (x : List Char) :
    ((cs "https://").isPrefixOf (cs "https://" ++ x)) = true := by
  show (List.isPrefixOf ('h' :: 't' :: 't' :: 'p' :: 's' :: ':' :: '/' :: '/' :: [])
    ('h' :: 't' :: 't' :: 'p' :: 's' :: ':' :: '/' :: '/' :: x)) = true
  simp [List.isPrefixOf]

theorem isPre_http_underscore (x : List Char) :
    ((cs "http://").isPrefixOf ('_' :: x)) = false := by
  show (List.isPrefixOf ('h' :: 't' :: 't' :: 'p' :: ':' :: '/' :: '/' :: []) ('_' :: x)) = false
  simp [List.isPrefixOf]

theorem isPre_https_underscore (x : List Char) :
    ((cs "https://").isPrefixOf ('_' :: x)) = false := by
  show (List.isPrefixOf ('h' :: 't' :: 't' :: 'p' :: 's' :: ':' :: '/' :: '/' :: []) ('_' :: x)) = false
  simp [List.isPrefixOf]

theorem isPre_us (x : List Char) : ((cs "_").isPrefixOf ('_' :: x)) = true := by
  show (List.isPrefixOf ('_' :: []) ('_' :: x)) = true
  simp [List.isPrefixOf]

theorem normalize_underscore (s : List Char) :
    normalize ('_' :: s) = .ok (splitc '.' s) := by
  unfold normalize
  simp only [isPre_http_underscore, isPre_https_underscore, isPre_us]
  simp

theorem mkCanon_eq (t k u : List Char) :
    mkCanon t k u =
      cs "https://" ++ (cs "ns.adobe.com" ++ '/' :: (t ++ '/' :: (k ++ '/' :: u))) := by
  show cs "https://ns.adobe.com/" ++ (t ++ '/' :: interc '/' [k, u]) = _
  show cs "https://ns.adobe.com/" ++ (t ++ '/' :: (k ++ '/' :: interc '/' [u])) = _
  show cs "https://ns.adobe.com/" ++ (t ++ '/' :: (k ++ '/' :: u)) = _
  rw [show cs "https://ns.adobe.com/" =
    cs "https://" ++ (cs "ns.adobe.com" ++ ['/']) from by decide]
  simp

theorem normalize_canon {t k u : List Char}
    (ht : '/' ∉ t) (hk : '/' ∉ k) (hu : '/' ∉ u) :
    normalize (mkCanon t k u) = .ok [t, k, u] := by
  have hsplit : splitc '/' (cs "ns.adobe.com" ++ '/' :: (t ++ '/' :: (k ++ '/' :: u)))
      = cs "ns.adobe.com" :: t :: k :: [u] := by
    rw [splitc_append _ (by decide), splitc_append _ ht, splitc_append _ hk,
      splitc_not_mem hu]
  rw [mkCanon_eq]
  unfold normalize
  rw [if_pos (Or.inr (isPre_https _))]
  simp only [afterFirst_scheme, hsplit]
  simp

theorem ok_bind {α β : Type} (a : α) (f : α → Except String β) :
    (Except.ok a >>= f) = f a := rfl

theorem parse_tenant_of_normalize {tbl : Table} {s t k u : List Char} {res : ResourceType}
    (hn : normalize s = .ok [t, k, u])
    (htbl : tlookup tbl (interc '.' [t, k, u]) = none)
    (hk : ResourceType.from_name k = some res) :
    parse tbl s = .ok
      { container := .tenant, resource := res, tenant := some t, uuid := u,
        id := '_' :: interc '.' [t, k, u],
        ref := cs "https://ns.adobe.com/" ++ interc '/' [t, k, u] } := by
  unfold parse
  rw [hn, ok_bind]
  rw [if_pos (show ([t, k, u] : List (List Char)).length > 1 by simp)]
  simp only [htbl, hk]

theorem parse_table_of_normalize {tbl : Table} {s kn rf : List Char}
    {split : List (List Char)} {res : ResourceType}
    (hn : normalize s = .ok split) (h2 : 2 ≤ split.length)
    (htbl : tlookup tbl (interc '.' split) = some (kn, rf))
    (hk : ResourceType.from_name kn = some res) :
    parse tbl s = .ok
      { container := .global, resource := res, tenant := none,
        uuid := interc '.' split, id := '_' :: interc '.' split, ref := rf } := by
  unfold parse
  rw [hn, ok_bind]
  rw [if_pos (show split.length > 1 by omega)]
  simp only [htbl, hk]

theorem parse_table_short {tbl : Table} {kn rf : List Char}
    {split : List (List Char)} {res : ResourceType}
    (h2 : 2 ≤ split.length)
    (htbl : tlookup tbl (interc '.' split) = some (kn, rf))
    (hk : ResourceType.from_name kn = some res) :
    parse tbl ('_' :: interc '.' split) = .ok
      { container := .global, resource := res, tenant := none,
        uuid := interc '.' split, id := '_' :: interc '.' split, ref := rf } := by
  have hmem : '.' ∈ interc '.' split := mem_interc_of_length h2
  have h2a : 2 ≤ (splitc '.' (interc '.' split)).length := splitc_length_ge_two hmem
  have hj : interc '.' (splitc '.' (interc '.' split)) = interc '.' split :=
    interc_splitc '.' (interc '.' split)
  have hn : normalize ('_' :: interc '.' split) = .ok (splitc '.' (interc '.' split)) :=
    normalize_underscore _
  have h := parse_table_of_normalize hn h2a (by rw [hj]; exact htbl) hk
  rw [hj] at h
  exact h

theorem error_bind {α β : Type} (e : String) (f : α → Except String β) :
    (Except.error e >>= f) = (Except.error e : Except String β) := rfl

/-- Claim C5: every malformed identifier — no http(s) scheme and no
leading underscore, or a normalized segment list that is not in the
global table and either has the wrong segment count or an unknown kind
alias — makes `parse` fail; it never returns a partially-filled
reference. -/
theorem C5_parse_malformed :
    (∀ (tbl : Table) (s : List Char),
      ((cs "http://").isPrefixOf s) = false → ((cs "https://").isPrefixOf s) = false →
      ((cs "_").isPrefixOf s) = false → ∃ e, parse tbl s = .error e)
    ∧ (∀ (tbl : Table) (s : List Char) (split : List (List Char)),
      normalize s = .ok split → tlookup tbl (interc '.' split) = none →
      split.length ≠ 3 → ∃ e, parse tbl s = .error e)
    ∧ (∀ (tbl : Table) (s t k u : List Char),
      normalize s = .ok [t, k, u] → tlookup tbl (interc '.' [t, k, u]) = none →
      ResourceType.from_name k = none → ∃ e, parse tbl s = .error e) := by
  refine ⟨?_, ?_, ?_⟩
  · intro tbl s h1 h2 h3
    have hn : normalize s = .error "unable to parse ref" := by
      unfold normalize
      rw [if_neg, if_neg]
      · rw [h3]; simp
      · rw [h1, h2]; simp
    exact ⟨_, by unfold parse; rw [hn, error_bind]⟩
  · intro tbl s split hn htbl hlen
    by_cases h2 : split.length > 1
    · unfold parse
      rw [hn, ok_bind, if_pos h2]
      simp only [htbl]
      match split, hlen with
      | a :: b :: [], _ => exact ⟨_, rfl⟩
      | a :: b :: c :: d :: rest, _ => exact ⟨_, rfl⟩
      | a :: b :: c :: [], h => simp at h
    · unfold parse
      rw [hn, ok_bind, if_neg h2]
      exact ⟨_, rfl⟩
  · intro tbl s t k u hn htbl hk
    unfold parse
    rw [hn, ok_bind, if_pos (by simp)]
    simp only [htbl, hk]
    exact ⟨_, rfl⟩

/-- Witness for C5 at concrete malformed identifiers of each category. -/
theorem C5_w :
    (∃ e, parse [] (cs "plainjunk") = .error e)
    ∧ (∃ e, parse [] (cs "_a.b") = .error e)
    ∧ (∃ e, parse [] (cs "_t.wrong.u") = .error e) :=
  ⟨C5_parse_malformed.1 [] (cs "plainjunk") rfl rfl rfl,
   C5_parse_malformed.2.1 [] (cs "_a.b") [cs "a", cs "b"] rfl rfl (by decide),
   C5_parse_malformed.2.2 [] (cs "_t.wrong.u") (cs "t") (cs "wrong") (cs "u") rfl rfl rfl⟩

/-- Counterexample to claim C6 as stated: with a single-segment key in
the global table, the identifier normalizes to a key present in the
table, yet `parse` fails (the parser asserts more than one segment
before consulting the table). -/
theorem C6_cex :
    tlookup [(cs "abc", cs "classes", cs "https://ns.adobe.com/abc")] (cs "abc")
      = some (cs "classes", cs "https://ns.adobe.com/abc")
    ∧ (∃ e, parse [(cs "abc", cs "classes", cs "https://ns.adobe.com/abc")] (cs "_abc")
        = .error e) :=
  ⟨rfl, "assert len(split) > 1", rfl⟩

/-- Claim C6 (amended): for every identifier whose normalized key has at
least two segments and is present in the global table with a known kind
name, `parse` takes kind and canonical ref from the table entry and
returns container Global, tenant unset, uuid the joined key, shortId
`_` + key — with no three-segment requirement. -/
theorem C6_parse_global (tbl : Table) (s kn rf : List Char)
    (split : List (List Char)) (res : ResourceType)
    (hn : normalize s = .ok split) (h2 : 2 ≤ split.length)
    (htbl : tlookup tbl (interc '.' split) = some (kn, rf))
    (hk : ResourceType.from_name kn = some res) :
    parse tbl s = .ok
      { container := .global, resource := res, tenant := none,
        uuid := interc '.' split, id := '_' :: interc '.' split, ref := rf } :=
  parse_table_of_normalize hn h2 htbl hk

/-- Witness for C6 on the spec's mock table, in both notations. -/
theorem C6_w :
    parse [(cs "xdm.context.profile", cs "classes", cs "https://ns.adobe.com/xdm/context/profile")]
        (cs "_xdm.context.profile")
      = .ok { container := .global, resource := .CLASS, tenant := none,
              uuid := interc '.' [cs "xdm", cs "context", cs "profile"],
              id := '_' :: interc '.' [cs "xdm", cs "context", cs "profile"],
              ref := cs "https://ns.adobe.com/xdm/context/profile" }
    ∧ parse [(cs "xdm.context.profile", cs "classes", cs "https://ns.adobe.com/xdm/context/profile")]
        (cs "https://ns.adobe.com/xdm/context/profile")
      = .ok { container := .global, resource := .CLASS, tenant := none,
              uuid := interc '.' [cs "xdm", cs "context", cs "profile"],
              id := '_' :: interc '.' [cs "xdm", cs "context", cs "profile"],
              ref := cs "https://ns.adobe.com/xdm/context/profile" } :=
  ⟨C6_parse_global _ _ _ _ [cs "xdm", cs "context", cs "profile"] .CLASS rfl (by decide) rfl rfl,
   C6_parse_global _ _ _ _ [cs "xdm", cs "context", cs "profile"] .CLASS rfl (by decide) rfl rfl⟩

/-- Claim C7: identifiers not in the table that normalize to exactly
three segments with a known kind alias parse to a Tenant reference with
the reconstructed canonical ref; legacy and current field-group
spellings give the same kind; an unknown alias fails. -/
theorem C7_parse_tenant :
    (∀ (tbl : Table) (s t k u : List Char) (res : ResourceType),
      normalize s = .ok [t, k, u] →
      tlookup tbl (interc '.' [t, k, u]) = none →
      ResourceType.from_name k = some res →
      parse tbl s = .ok
        { container := .tenant, resource := res, tenant := some t, uuid := u,
          id := '_' :: interc '.' [t, k, u],
          ref := cs "https://ns.adobe.com/" ++ interc '/' [t, k, u] })
    ∧ ResourceType.from_name (cs "mixins") = some .FIELD_GROUP
    ∧ ResourceType.from_name (cs "fieldgroups") = some .FIELD_GROUP
    ∧ (∀ (tbl : Table) (s t k u : List Char),
      normalize s = .ok [t, k, u] →
      tlookup tbl (interc '.' [t, k, u]) = none →
      ResourceType.from_name k = none → ∃ e, parse tbl s = .error e) := by
  refine ⟨?_, rfl, rfl, ?_⟩
  · intro tbl s t k u res hn htbl hk
    exact parse_tenant_of_normalize hn htbl hk
  · intro tbl s t k u hn htbl hk
    unfold parse
    rw [hn, ok_bind, if_pos (by simp)]
    simp only [htbl, hk]
    exact ⟨_, rfl⟩

/-- Witness for C7: a legacy-alias short id parses as a tenant field
group, and an unknown alias fails. -/
theorem C7_w :
    parse [] (cs "_t.mixins.u")
      = .ok { container := .tenant, resource := .FIELD_GROUP, tenant := some (cs "t"),
              uuid := cs "u", id := '_' :: interc '.' [cs "t", cs "mixins", cs "u"],
              ref := cs "https://ns.adobe.com/" ++ interc '/' [cs "t", cs "mixins", cs "u"] }
    ∧ (∃ e, parse [] (cs "_t.bogus.u") = .error e) :=
  ⟨C7_parse_tenant.1 [] (cs "_t.mixins.u") (cs "t") (cs "mixins") (cs "u") .FIELD_GROUP rfl rfl rfl,
   C7_parse_tenant.2.2.2 [] (cs "_t.bogus.u") (cs "t") (cs "bogus") (cs "u") rfl rfl rfl⟩

/-- Counterexample to claim C1 as stated: a valid canonical ref whose
uuid segment contains a dot parses successfully (and its canonicalRef
round-trips), but re-parsing the resulting shortId fails, so the
round-trip across both notations does not hold for every valid
canonical ref. -/
theorem C1_cex :
    ∃ R, parse [] (cs "https://ns.adobe.com/t/schemas/a.b") = .ok R
      ∧ R.ref = cs "https://ns.adobe.com/t/schemas/a.b"
      ∧ ∃ e, parse [] R.id = .error e :=
  ⟨{ container := .tenant, resource := .SCHEMA, tenant := some (cs "t"),
     uuid := cs "a.b", id := cs "_t.schemas.a.b",
     ref := cs "https://ns.adobe.com/t/schemas/a.b" },
   rfl, rfl, "unable to parse ref", rfl⟩

/-- Claim C1 (amended): the round-trip holds for canonical refs resolved
through the tenant pattern whose segments contain no dot and no slash,
and for any identifier resolved through the global table the shortId
always re-parses to the identical reference (with canonicalRef equal to
the table entry's ref). -/
theorem C1_roundtrip :
    (∀ (tbl : Table) (t k u : List Char) (res : ResourceType),
      ResourceType.from_name k = some res →
      '.' ∉ t → '/' ∉ t → '.' ∉ u → '/' ∉ u →
      tlookup tbl (interc '.' [t, k, u]) = none →
      ∃ R, parse tbl (mkCanon t k u) = .ok R ∧ R.ref = mkCanon t k u
        ∧ R.id = '_' :: interc '.' [t, k, u] ∧ parse tbl R.id = .ok R)
    ∧ (∀ (tbl : Table) (s kn rf : List Char) (split : List (List Char)) (res : ResourceType),
      normalize s = .ok split → 2 ≤ split.length →
      tlookup tbl (interc '.' split) = some (kn, rf) →
      ResourceType.from_name kn = some res →
      ∃ R, parse tbl s = .ok R ∧ R.ref = rf ∧ parse tbl R.id = .ok R) := by
  constructor
  · intro tbl t k u res hk ht1 ht2 hu1 hu2 htbl
    obtain ⟨hk1, hk2⟩ := from_name_clean hk
    have hn := normalize_canon ht2 hk2 hu2
    have hp := parse_tenant_of_normalize hn htbl hk
    refine ⟨_, hp, rfl, rfl, ?_⟩
    · have hsp : splitc '.' (interc '.' [t, k, u]) = [t, k, u] := by
        show splitc '.' (t ++ '.' :: (k ++ '.' :: u)) = [t, k, u]
        rw [splitc_append _ ht1, splitc_append _ hk1, splitc_not_mem hu1]
      have hn2 : normalize ('_' :: interc '.' [t, k, u]) = .ok [t, k, u] := by
        rw [normalize_underscore, hsp]
      exact parse_tenant_of_normalize hn2 htbl hk
  · intro tbl s kn rf split res hn h2 htbl hk
    refine ⟨_, parse_table_of_normalize hn h2 htbl hk, rfl, ?_⟩
    exact parse_table_short h2 htbl hk

/-- Witness for C1 on a clean three-segment canonical ref. -/
theorem C1_w :
    ∃ R, parse [] (mkCanon (cs "t") (cs "schemas") (cs "u")) = .ok R
      ∧ R.ref = mkCanon (cs "t") (cs "schemas") (cs "u")
      ∧ R.id = '_' :: interc '.' [cs "t", cs "schemas", cs "u"]
      ∧ parse [] R.id = .ok R :=
  C1_roundtrip.1 [] (cs "t") (cs "schemas") (cs "u") .SCHEMA rfl
    (by decide) (by decide) (by decide) (by decide) rfl

/-! Lemmas about the JSON-object and query-parameter dictionaries. -/

theorem olookup_eq_none_iff {o : Obj} {k : List Char} :
    olookup o k = none ↔ k ∉ o.map Prod.fst := by
  induction o with
  | nil => simp [olookup]
  | cons kv rest ih =>
    obtain ⟨k1, v1⟩ := kv
    by_cases h : k1 = k
    · subst h
      simp [olookup]
    · simp [olookup, h, ih, Ne.symm h]

theorem hasKey_false_iff {o : Obj} {k : List Char} :
    hasKey o k = false ↔ olookup o k = none := by
  unfold hasKey
  cases olookup o k <;> simp

theorem hasKey_mem {o : Obj} {k : List Char} (h : hasKey o k = true) :
    k ∈ o.map Prod.fst := by
  by_contra hm
  rw [← olookup_eq_none_iff] at hm
  rw [hasKey, hm] at h
  simp at h

theorem olookup_setKey_self (o : Obj) (k : List Char) (v : JVal) :
    olookup (setKey o k v) k = some v := by
  induction o with
  | nil => simp [setKey, olookup]
  | cons kv rest ih =>
    obtain ⟨k1, v1⟩ := kv
    by_cases h : k1 = k
    · subst h
      simp [setKey, olookup]
    · simp [setKey, olookup, h, ih]

theorem olookup_setKey_ne (o : Obj) {k k2 : List Char} (v : JVal) (h : k ≠ k2) :
    olookup (setKey o k v) k2 = olookup o k2 := by
  induction o with
  | nil => simp [setKey, olookup, h]
  | cons kv rest ih =>
    obtain ⟨k1, v1⟩ := kv
    by_cases h1 : k1 = k
    · subst h1
      simp [setKey, olookup, h]
    · simp [setKey, olookup, h1, ih]

theorem olookup_updateObj_of_none {r : Obj} {k : List Char}
    (h : olookup r k = none) (o : Obj) :
    olookup (updateObj o r) k = olookup o k := by
  induction r generalizing o with
  | nil => rfl
  | cons kv rest ih =>
    obtain ⟨k1, v1⟩ := kv
    have h1 : k1 ≠ k := by
      intro e
      rw [olookup, if_pos e] at h
      cases h
    have h2 : olookup rest k = none := by
      rw [olookup, if_neg h1] at h
      exact h
    show olookup (updateObj (setKey o k1 v1) rest) k = olookup o k
    rw [ih h2, olookup_setKey_ne _ _ h1]

theorem olookup_updateObj_of_mem {r : Obj} {k : List Char} {v : JVal}
    (hnd : (r.map Prod.fst).Nodup) (h : olookup r k = some v) (o : Obj) :
    olookup (updateObj o r) k = some v := by
  induction r generalizing o with
  | nil => cases h
  | cons kv rest ih =>
    obtain ⟨k1, v1⟩ := kv
    simp only [List.map_cons, List.nodup_cons] at hnd
    by_cases h1 : k1 = k
    · subst h1
      rw [olookup, if_pos rfl] at h
      injection h with h
      subst h
      have hr : olookup rest k1 = none := olookup_eq_none_iff.mpr hnd.1
      show olookup (updateObj (setKey o k1 v1) rest) k1 = some v1
      rw [olookup_updateObj_of_none hr, olookup_setKey_self]
    · rw [olookup, if_neg h1] at h
      exact ih hnd.2 h (setKey o k1 v1)

theorem olookup_append_of_none {o : Obj} {k : List Char}
    (h : olookup o k = none) (p : Obj) :
    olookup (o ++ p) k = olookup p k := by
  induction o with
  | nil => rfl
  | cons kv rest ih =>
    obtain ⟨k1, v1⟩ := kv
    have h1 : k1 ≠ k := by
      intro e
      rw [olookup, if_pos e] at h
      cases h
    have h2 : olookup rest k = none := by
      rw [olookup, if_neg h1] at h
      exact h
    rw [List.cons_append, olookup, if_neg h1, ih h2]

theorem lookupParam_setParam_self (p : List (List Char × List Char)) (k v : List Char) :
    lookupParam (setParam p k v) k = some v := by
  induction p with
  | nil => simp [setParam, lookupParam]
  | cons kv rest ih =>
    obtain ⟨k1, v1⟩ := kv
    by_cases h : k1 = k
    · subst h
      simp [setParam, lookupParam]
    · simp [setParam, lookupParam, h, ih]

theorem setParam_setParam (p : List (List Char × List Char)) (k a b : List Char) :
    setParam (setParam p k a) k b = setParam p k b := by
  induction p with
  | nil => simp [setParam]
  | cons kv rest ih =>
    obtain ⟨k1, v1⟩ := kv
    by_cases h : k1 = k
    · subst h
      simp [setParam]
    · simp [setParam, h, ih]

theorem setParam_of_lookup_eq {p : List (List Char × List Char)} {k v : List Char}
    (h : lookupParam p k = some v) : setParam p k v = p := by
  induction p with
  | nil => cases h
  | cons kv rest ih =>
    obtain ⟨k1, v1⟩ := kv
    by_cases h1 : k1 = k
    · subst h1
      rw [lookupParam, if_pos rfl] at h
      injection h with h
      subst h
      rw [setParam, if_pos rfl]
    · rw [lookupParam, if_neg h1] at h
      rw [setParam, if_neg h1, ih h]

theorem lookupParam_mkParams_start (query : List (List Char × List Char)) :
    lookupParam (mkParams query) (cs "start") = none := by
  unfold mkParams
  split_ifs
  · rfl
  · show lookupParam [(cs "property", _)] (cs "start") = none
    rw [lookupParam, if_neg (by decide), lookupParam]

theorem lookupParam_applyStart (p : List (List Char × List Char))
    (hp : lookupParam p (cs "start") = none) (st : Option (List Char)) :
    lookupParam (applyStart p st) (cs "start") = st := by
  cases st with
  | none => exact hp
  | some s => exact lookupParam_setParam_self p _ s

/-! Lemmas about `Resource.request` and the accessors built on it. -/

theorem request_ok (res : Resource) (method : String) (full : Bool)
    (js : Option JVal) (r : Obj)
    (h1 : olookup r (cs "$id") = some (.str res.ref))
    (h2 : olookup r (cs "meta:altId") = some (.str res.id)) :
    res.request method full js (some r) =
      .ok ({ res with body := updateObj res.body r },
        { method := method,
          path := get_resource_path res.container res.type (some res.id),
          accept := get_accept_header (if full then some (cs "full") else none) (some 1),
          params := [], jsonBody := js }) := by
  unfold Resource.request
  simp only [h1, h2]
  simp

/-- Claim C8: collection `get` parses the identifier, fails when the
parsed kind is not allowed, and otherwise constructs the typed resource
with a body holding only the `$id`, issuing no request. -/
theorem C8_get (tbl : Table) (c : ResourceCollection) (s : List Char) (R : SchemaRef)
    (hp : parse tbl s = .ok R) :
    (R.resource ∉ c.resources → ∃ e, ResourceCollection.get tbl c s = .error e)
    ∧ (R.resource ∈ c.resources → ResourceCollection.get tbl c s =
        .ok ({ type := R.resource, body := [(cs "$id", .str R.ref)], id := R.id,
               ref := R.ref, uuid := R.uuid, tenant := R.tenant,
               container := R.container }, [])) := by
  constructor
  · intro hm
    unfold ResourceCollection.get
    rw [hp, ok_bind, if_neg hm]
    exact ⟨_, rfl⟩
  · intro hm
    unfold ResourceCollection.get
    rw [hp, ok_bind, if_pos hm]
    unfold Resource.ofRef
    rw [if_pos rfl]
    rfl

/-- Witness for C8: getting a schema ref through a schema collection
succeeds with a `$id`-only body and an empty request trace; through a
class collection it fails. -/
theorem C8_w :
    ResourceCollection.get [] { container := none, resources := [.SCHEMA] } (cs "_t.schemas.u")
      = .ok ({ type := .SCHEMA, body := [(cs "$id", .str (cs "https://ns.adobe.com/t/schemas/u"))],
               id := cs "_t.schemas.u", ref := cs "https://ns.adobe.com/t/schemas/u",
               uuid := cs "u", tenant := some (cs "t"), container := .tenant }, [])
    ∧ (∃ e, ResourceCollection.get [] { container := none, resources := [.CLASS] }
        (cs "_t.schemas.u") = .error e) :=
  ⟨(C8_get [] { container := none, resources := [.SCHEMA] } (cs "_t.schemas.u")
      { container := .tenant, resource := .SCHEMA, tenant := some (cs "t"), uuid := cs "u",
        id := cs "_t.schemas.u", ref := cs "https://ns.adobe.com/t/schemas/u" } rfl).2
    (by decide),
   (C8_get [] { container := none, resources := [.CLASS] } (cs "_t.schemas.u")
      { container := .tenant, resource := .SCHEMA, tenant := some (cs "t"), uuid := cs "u",
        id := cs "_t.schemas.u", ref := cs "https://ns.adobe.com/t/schemas/u" } rfl).1
    (by decide)⟩

/-- Counterexample to claim C4 as stated: when the PATCH response has an
empty body (the transport returns no JSON), the in-memory body is left
untouched, so its title does not equal the assigned value. -/
theorem C4_cex :
    Resource.set_title res0 (jstr "New") none =
      .ok (res0,
        { method := "PATCH",
          path := get_resource_path res0.container res0.type (some res0.id),
          accept := get_accept_header none (some 1), params := [],
          jsonBody := some (.arr [.obj [(cs "op", jstr "replace"),
            (cs "path", jstr "/title"), (cs "value", jstr "New")]]) })
    ∧ olookup res0.body (cs "title") = none := ⟨rfl, rfl⟩

/-- Claim C4 (amended): assigning `title` (resp. `description`) issues
exactly one PATCH request whose body is the single-operation JSON patch,
with no follow-up GET; the in-memory body is then merged from the PATCH
response (not set optimistically), so its title (resp. description)
equals whatever the response carries — in particular the assigned value
when the server echoes it. -/
theorem C4_set_title_description (res : Resource) (v : JVal) (r : Obj)
    (h1 : olookup r (cs "$id") = some (.str res.ref))
    (h2 : olookup r (cs "meta:altId") = some (.str res.id))
    (hnd : (r.map Prod.fst).Nodup) :
    (res.set_title v (some r) =
      .ok ({ res with body := updateObj res.body r },
        { method := "PATCH",
          path := get_resource_path res.container res.type (some res.id),
          accept := get_accept_header none (some 1), params := [],
          jsonBody := some (.arr [.obj [(cs "op", jstr "replace"),
            (cs "path", jstr "/title"), (cs "value", v)]]) }))
    ∧ (∀ w, olookup r (cs "title") = some w →
        olookup (updateObj res.body r) (cs "title") = some w)
    ∧ (res.set_description v (some r) =
      .ok ({ res with body := updateObj res.body r },
        { method := "PATCH",
          path := get_resource_path res.container res.type (some res.id),
          accept := get_accept_header none (some 1), params := [],
          jsonBody := some (.arr [.obj [(cs "op", jstr "replace"),
            (cs "path", jstr "/description"), (cs "value", v)]]) }))
    ∧ (∀ w, olookup r (cs "description") = some w →
        olookup (updateObj res.body r) (cs "description") = some w) := by
  refine ⟨?_, ?_, ?_, ?_⟩
  · unfold Resource.set_title
    rw [request_ok res "PATCH" false _ r h1 h2]
    rfl
  · intro w hw
    exact olookup_updateObj_of_mem hnd hw res.body
  · unfold Resource.set_description
    rw [request_ok res "PATCH" false _ r h1 h2]
    rfl
  · intro w hw
    exact olookup_updateObj_of_mem hnd hw res.body

/-- Witness for C4: the PATCH on `res0` with the echoed document `r0`
lands the new title in the body. -/
theorem C4_w :
    (res0.set_title (jstr "T") (some r0)).isOk = true
    ∧ olookup (updateObj res0.body r0) (cs "title") = some (jstr "T")
    ∧ olookup (updateObj res0.body r0) (cs "description") = some (jstr "D") := by
  have h := C4_set_title_description res0 (jstr "T") r0 rfl rfl (by decide)
  exact ⟨by rw [h.1]; rfl, h.2.1 (jstr "T") rfl, h.2.2.2 (jstr "D") rfl⟩

theorem pure_bind_e {α β : Type} (a : α) (f : α → Except String β) :
    (pure a >>= f : Except String β) = f a := rfl

theorem properties_cached (res : Resource) (resp : Option Obj) (v : JVal)
    (h : olookup res.body (cs "properties") = some v) :
    res.properties resp = .ok (v, res, []) := by
  have hk : hasKey res.body (cs "properties") = true := by
    rw [hasKey, h]
    rfl
  unfold Resource.properties setdefaultObj
  simp only [hk, if_true, pure_bind_e]
  rw [h]
  rfl

theorem properties_fetch (res : Resource) (r : Obj)
    (h0 : hasKey res.body (cs "properties") = false)
    (h1 : olookup r (cs "$id") = some (.str res.ref))
    (h2 : olookup r (cs "meta:altId") = some (.str res.id))
    (h3 : olookup r (cs "properties") = none) :
    res.properties (some r) = .ok (.obj [],
      { res with body := updateObj res.body r ++ [(cs "properties", .obj [])] },
      [{ method := "GET",
         path := get_resource_path res.container res.type (some res.id),
         accept := get_accept_header (some (cs "full")) (some 1),
         params := [], jsonBody := none }]) := by
  have hb : olookup (updateObj res.body r) (cs "properties") = none := by
    rw [olookup_updateObj_of_none h3]
    exact hasKey_false_iff.mp h0
  have hbk : hasKey (updateObj res.body r) (cs "properties") = false :=
    hasKey_false_iff.mpr hb
  unfold Resource.properties setdefaultObj
  simp only [h0, Bool.false_eq_true, if_false]
  rw [request_ok res "GET" true none r h1 h2]
  simp only [ok_bind, pure_bind_e]
  simp only [hbk, Bool.false_eq_true, if_false]
  rw [olookup_append_of_none hb]
  rw [show olookup [(cs "properties", JVal.obj [])] (cs "properties")
    = some (.obj []) from rfl]
  rfl

/-- Claim C10: when neither the body nor the full-fidelity fetch
response carries a `properties` key, the accessor does not fail: it
stores an empty map under `properties` and returns it, and a second
access returns that same empty map with no further request. -/
theorem C10_properties (res : Resource) (r : Obj)
    (h0 : hasKey res.body (cs "properties") = false)
    (h1 : olookup r (cs "$id") = some (.str res.ref))
    (h2 : olookup r (cs "meta:altId") = some (.str res.id))
    (h3 : olookup r (cs "properties") = none) :
    ∃ res1 req, res.properties (some r) = .ok (.obj [], res1, [req])
      ∧ olookup res1.body (cs "properties") = some (.obj [])
      ∧ ∀ resp2, res1.properties resp2 = .ok (.obj [], res1, []) := by
  have hb : olookup (updateObj res.body r) (cs "properties") = none := by
    rw [olookup_updateObj_of_none h3]
    exact hasKey_false_iff.mp h0
  refine ⟨_, _, properties_fetch res r h0 h1 h2 h3, ?_, ?_⟩
  · rw [olookup_append_of_none hb]
    rfl
  · intro resp2
    refine properties_cached _ resp2 _ ?_
    rw [olookup_append_of_none hb]
    rfl

/-- Witness for C10 on the fixture resource and a response without
`properties`. -/
theorem C10_w :
    ∃ res1 req, res0.properties (some r1) = .ok (.obj [], res1, [req])
      ∧ olookup res1.body (cs "properties") = some (.obj [])
      ∧ ∀ resp2, res1.properties resp2 = .ok (.obj [], res1, []) :=
  C10_properties res0 r1 rfl rfl rfl rfl

theorem behavior_eq (tbl : Table) (res : Resource) (resp : Option Obj)
    (exts : List Resource) (res1 : Resource) (reqs : List Request)
    (he : res.extends_list tbl resp = .ok (exts, res1, reqs)) :
    res.behavior tbl resp =
      (match exts.filter (fun x => x.type = ResourceType.BEHAVIOR) with
       | [b] => .ok b
       | _ => .error "assert len(behaviors) == 1") := by
  unfold Resource.behavior
  rw [he, ok_bind]
  rfl

theorem field_groups_eq (tbl : Table) (res : Resource) (resp : Option Obj)
    (exts : List Resource) (res1 : Resource) (reqs : List Request)
    (he : res.extends_list tbl resp = .ok (exts, res1, reqs)) :
    res.field_groups tbl resp =
      .ok (exts.filter (fun x => x.type = ResourceType.FIELD_GROUP)) := by
  unfold Resource.field_groups
  rw [he, ok_bind]
  rfl

/-- Claim C9: on any resource (in particular every Schema or Class),
`behavior` returns the unique element of the resolved `extends` list of
kind Behavior and fails when there are zero or more than one, and
`field_groups` returns exactly the FieldGroup-kind entries. -/
theorem C9_behavior_field_groups (tbl : Table) (res : Resource) (resp : Option Obj)
    (exts : List Resource) (res1 : Resource) (reqs : List Request)
    (he : res.extends_list tbl resp = .ok (exts, res1, reqs)) :
    (∀ b, res.behavior tbl resp = .ok b ↔
      exts.filter (fun x => x.type = ResourceType.BEHAVIOR) = [b])
    ∧ ((exts.filter (fun x => x.type = ResourceType.BEHAVIOR)).length ≠ 1 →
        ∃ e, res.behavior tbl resp = .error e)
    ∧ res.field_groups tbl resp =
        .ok (exts.filter (fun x => x.type = ResourceType.FIELD_GROUP)) := by
  refine ⟨?_, ?_, field_groups_eq tbl res resp exts res1 reqs he⟩
  · intro b
    rw [behavior_eq tbl res resp exts res1 reqs he]
    cases hf : exts.filter (fun x => x.type = ResourceType.BEHAVIOR) with
    | nil => simp
    | cons b1 bs =>
      cases bs with
      | nil =>
        constructor
        · intro hx
          injection hx with hx
          rw [hx]
        · intro hx
          injection hx with hx _
          rw [hx]
      | cons b2 bs2 => simp
  · intro hlen
    rw [behavior_eq tbl res resp exts res1 reqs he]
    cases hf : exts.filter (fun x => x.type = ResourceType.BEHAVIOR) with
    | nil => exact ⟨_, rfl⟩
    | cons b1 bs =>
      cases bs with
      | nil =>
        rw [hf] at hlen
        simp at hlen
      | cons b2 bs2 => exact ⟨_, rfl⟩

/-- Witness for C9: the two-entry extends list yields its unique
behavior and exactly its field groups; the behaviorless one fails. -/
theorem C9_w :
    res2.extends_list [] none = .ok (ext2, { res2 with body := res2.body }, [])
    ∧ res2.behavior [] none = .ok (ext2.get ⟨0, by decide⟩)
    ∧ res2.field_groups [] none =
        .ok (ext2.filter (fun x => x.type = ResourceType.FIELD_GROUP))
    ∧ (∃ e, res3.behavior [] none = .error e) := by
  have he : res2.extends_list [] none = .ok (ext2, { res2 with body := res2.body }, []) := rfl
  have he3 : res3.extends_list [] none = .ok (ext3, { res3 with body := res3.body }, []) := rfl
  have h := C9_behavior_field_groups [] res2 none ext2 _ _ he
  have h3 := C9_behavior_field_groups [] res3 none ext3 _ _ he3
  refine ⟨he, ?_, h.2.2, ?_⟩
  · exact (h.1 _).mpr (by rfl)
  · exact h3.2.1 (by decide)

/-! The `definitions` merge: the source accessor agrees with the spec's
description of the algorithm. -/

theorem eOpt_props_match (o : Obj) :
    eOpt (match olookup o (cs "properties") with
          | some (.obj p) => pure p
          | none => pure ([] : Obj)
          | some _ => (.error "properties is not a dict" : Except String Obj))
      = ownProps o := by
  unfold ownProps
  cases ho : olookup o (cs "properties") with
  | none => rfl
  | some w => cases w <;> rfl

theorem resolveEntry_eq (b : Obj) (v : JVal) :
    eOpt (resolveEntry b v) = entrySpec b v := by
  cases v with
  | str s => rfl
  | arr l => rfl
  | obj record =>
    unfold resolveEntry entrySpec
    simp only [pure_bind_e, error_bind, ok_bind]
    cases href : olookup record (cs "$ref") with
    | none =>
      rw [if_neg (by decide)]
      exact eOpt_props_match record
    | some w =>
      cases w with
      | obj o => rfl
      | arr l => rfl
      | str r =>
        simp only []
        by_cases hpre : ((cs "#").isPrefixOf r) = true
        · rw [if_pos hpre, if_pos hpre]
          by_cases hprops : hasKey record (cs "properties") = true
          · rw [if_pos hprops, if_neg (fun h => h.2.2 hprops)]
            rfl
          · rw [if_neg hprops]
            by_cases hdef : ((cs "#/definitions/").isPrefixOf r) = true
            · rw [if_neg (fun h => h hdef)]
              by_cases hsl : ((r.drop (cs "#/definitions/").length).contains '/') = true
              · rw [if_pos hsl, if_neg (fun h => h.2.1 hsl)]
                rfl
              · rw [if_neg hsl, if_pos ⟨hdef, hsl, hprops⟩]
                cases hd : olookup b (cs "definitions") with
                | none => rfl
                | some dw =>
                  cases dw with
                  | str s2 => rfl
                  | arr l2 => rfl
                  | obj d =>
                    simp only []
                    cases ht : olookup d (r.drop (cs "#/definitions/").length) with
                    | none => rfl
                    | some tw =>
                      cases tw with
                      | str s3 => rfl
                      | arr l3 => rfl
                      | obj t =>
                        simp only []
                        by_cases htp : hasKey t (cs "properties") = true
                        · rw [if_pos htp, if_pos htp]
                          exact eOpt_props_match t
                        · rw [if_neg htp, if_neg htp]
                          rfl
            · rw [if_pos hdef, if_neg (fun h => hdef h.1)]
              rfl
        · rw [if_neg hpre, if_neg hpre]
          exact eOpt_props_match record

theorem insertAll_eOpt : ∀ (ps acc : Obj), ((acc.map Prod.fst).Nodup) →
    eOpt (insertAll acc ps) =
      if (((acc ++ ps).map Prod.fst).Nodup) then some (acc ++ ps) else none := by
  intro ps
  induction ps with
  | nil =>
    intro acc hacc
    simp [insertAll, eOpt, hacc]
  | cons kv rest ih =>
    obtain ⟨k, v⟩ := kv
    intro acc hacc
    unfold insertAll
    by_cases hk : hasKey acc k = true
    · rw [if_pos hk, if_neg ?hnd]
      · rfl
      case hnd =>
        intro hnd
        rw [List.map_append] at hnd
        obtain ⟨h1, h2, hdisj⟩ := List.nodup_append.mp hnd
        exact hdisj (hasKey_mem hk) (by simp)
    · rw [if_neg hk]
      have hkf : hasKey acc k = false := by
        revert hk
        cases hasKey acc k <;> simp
      have hkn : k ∉ acc.map Prod.fst :=
        olookup_eq_none_iff.mp (hasKey_false_iff.mp hkf)
      have hacc2 : (((acc ++ [(k, v)]).map Prod.fst).Nodup) := by
        rw [List.map_append]
        refine List.Nodup.append hacc (by simp) ?_
        intro a ha hb
        simp at hb
        subst hb
        exact hkn ha
      rw [ih (acc ++ [(k, v)]) hacc2]
      rw [show (acc ++ [(k, v)]) ++ rest = acc ++ (k, v) :: rest by simp]

theorem mergeAllOf_eOpt (b : Obj) : ∀ (l : List JVal) (acc : Obj),
    ((acc.map Prod.fst).Nodup) →
    eOpt (mergeAllOf b l acc) =
      (entriesSpec b l).bind (fun ps =>
        if (((acc ++ ps.flatten).map Prod.fst).Nodup)
        then some (acc ++ ps.flatten) else none) := by
  intro l
  induction l with
  | nil =>
    intro acc hacc
    simp [mergeAllOf, eOpt, entriesSpec, Option.bind, hacc]
  | cons v rest ih =>
    intro acc hacc
    unfold mergeAllOf entriesSpec
    cases hr : resolveEntry b v with
    | error e =>
      have hs : entrySpec b v = none := by
        rw [← resolveEntry_eq, hr]
        rfl
      rw [error_bind, hs]
      rfl
    | ok props =>
      have hs : entrySpec b v = some props := by
        rw [← resolveEntry_eq, hr]
        rfl
      rw [ok_bind, hs]
      cases hm : entriesSpec b rest with
      | none =>
        cases hi : insertAll acc props with
        | error e =>
          rw [error_bind]
          rfl
        | ok acc2 =>
          rw [ok_bind]
          have hins := insertAll_eOpt props acc hacc
          rw [hi] at hins
          by_cases hnd2 : (((acc ++ props).map Prod.fst).Nodup)
          · rw [if_pos hnd2] at hins
            injection hins with hins
            subst hins
            rw [ih (acc ++ props) hnd2, hm]
            rfl
          · rw [if_neg hnd2] at hins
            cases hins
      | some ps2 =>
        cases hi : insertAll acc props with
        | error e =>
          rw [error_bind]
          have hins := insertAll_eOpt props acc hacc
          rw [hi] at hins
          have hnd : ¬ (((acc ++ props).map Prod.fst).Nodup) := by
            intro hc
            rw [if_pos hc] at hins
            cases hins
          have hnd3 : ¬ (((acc ++ (props :: ps2).flatten).map Prod.fst).Nodup) := by
            intro hc
            apply hnd
            have hsub : ((acc ++ props).map Prod.fst).Sublist
                ((acc ++ (props :: ps2).flatten).map Prod.fst) := by
              apply List.Sublist.map
              rw [List.flatten_cons, ← List.append_assoc]
              exact List.sublist_append_left _ _
            exact hsub.nodup hc
          show (none : Option Obj) =
            if (((acc ++ (props :: ps2).flatten).map Prod.fst).Nodup)
            then some (acc ++ (props :: ps2).flatten) else none
          rw [if_neg hnd3]
        | ok acc2 =>
          rw [ok_bind]
          have hins := insertAll_eOpt props acc hacc
          rw [hi] at hins
          by_cases hnd2 : (((acc ++ props).map Prod.fst).Nodup)
          · rw [if_pos hnd2] at hins
            injection hins with hins
            subst hins
            rw [ih (acc ++ props) hnd2, hm]
            show (if ((((acc ++ props) ++ ps2.flatten).map Prod.fst).Nodup)
                  then some ((acc ++ props) ++ ps2.flatten) else none)
              = if (((acc ++ (props :: ps2).flatten).map Prod.fst).Nodup)
                then some (acc ++ (props :: ps2).flatten) else none
            rw [show (acc ++ props) ++ ps2.flatten = acc ++ (props :: ps2).flatten by
              rw [List.flatten_cons, List.append_assoc]]
          · rw [if_neg hnd2] at hins
            cases hins

/-- Claim C2: on a body with an `allOf` list, the `definitions` accessor
computes exactly the spec's merge — each entry resolved per the local
`#/definitions` rules or its own properties, accumulated in list order,
failing whenever a property key is contributed by more than one entry,
and returning the union for disjoint keys. -/
theorem C2_definitions (res : Resource) (resp : Option Obj)
    (h : hasKey res.body (cs "allOf") = true) :
    eOpt ((res.definitions resp).map (fun x => x.1)) = definitionsSpec res.body := by
  unfold Resource.definitions setdefaultObj definitionsSpec
  simp only [h, if_true, pure_bind_e]
  cases hv : olookup res.body (cs "allOf") with
  | none =>
    rw [hasKey, hv] at h
    simp at h
  | some w =>
    cases w with
    | str s => rfl
    | obj o => rfl
    | arr l =>
      simp only []
      have hmm := mergeAllOf_eOpt res.body l [] (by simp)
      cases hmg : mergeAllOf res.body l [] with
      | error e =>
        rw [hmg] at hmm
        exact hmm
      | ok props =>
        rw [hmg] at hmm
        exact hmm

/-- Witness for C2: disjoint keys merge to their union, and a duplicate
key makes both the accessor and the spec merge fail. -/
theorem C2_w :
    eOpt ((res4.definitions none).map (fun x => x.1)) = definitionsSpec res4.body
    ∧ definitionsSpec res4.body = some [(cs "a", jstr "1"), (cs "b", jstr "2")]
    ∧ eOpt ((res5.definitions none).map (fun x => x.1)) = none
    ∧ definitionsSpec res5.body = none := by
  refine ⟨C2_definitions res4 none rfl, rfl, ?_, rfl⟩
  rw [C2_definitions res5 none rfl]
  rfl

/-! Pagination: the listing loop follows the server's cursor chain. -/

theorem pageObj_results (pg : List JVal × Option (List Char)) :
    olookup (pageObj pg) (cs "results") = some (.arr pg.1) := rfl

theorem pageObj_page (pg : List JVal × Option (List Char)) :
    olookup (pageObj pg) (cs "_page") =
      some (.obj (match pg.2 with
        | some s => [(cs "next", .str s)]
        | none => [])) := by
  show (if cs "results" = cs "_page" then _ else _) = _
  rw [if_neg (by decide)]
  rfl

theorem chain_starts_some (f : PageFun) : ∀ (fuel : Nat) (s : List Char)
    (rs : List JVal) (starts : List (Option (List Char))),
    chainFrom f fuel (some s) = some (rs, starts) →
    ∀ st ∈ starts, st.isSome = true := by
  intro fuel
  induction fuel with
  | zero =>
    intro s rs starts hch
    cases hch
  | succ n ih =>
    intro s rs starts hch
    unfold chainFrom at hch
    cases hnx : (f (some s)).2 with
    | none =>
      simp only [hnx] at hch
      injection hch with hch
      injection hch with hch1 hch2
      subst hch2
      intro st hst
      simp at hst
      rw [hst]
      rfl
    | some s2 =>
      simp only [hnx] at hch
      cases hch2 : chainFrom f n (some s2) with
      | none =>
        rw [hch2] at hch
        cases hch
      | some pr =>
        obtain ⟨rs2, starts2⟩ := pr
        rw [hch2] at hch
        injection hch with hch
        injection hch with hch1 hch2e
        subst hch2e
        intro st hst
        cases List.mem_cons.mp hst with
        | inl he =>
          rw [he]
          rfl
        | inr hm => exact ih s2 rs2 starts2 hch2 st hm

theorem pagLoop_chain (serve : Serve) (path accept : List Char) (f : PageFun)
    (hserve : ∀ params, serve params = pageObj (f (lookupParam params (cs "start")))) :
    ∀ (fuel : Nat) (c : Option (List Char)) (rs : List JVal)
      (starts : List (Option (List Char))) (p : List (List Char × List Char))
      (recs : List JVal) (tr : List Request),
      chainFrom f fuel c = some (rs, starts) →
      lookupParam p (cs "start") = c →
      paginateLoop serve path accept fuel p recs tr =
        .ok (recs ++ rs, tr ++ starts.map (fun st =>
          { method := "GET", path := path, accept := accept,
            params := applyStart p st, jsonBody := none })) := by
  intro fuel
  induction fuel with
  | zero =>
    intro c rs starts p recs tr hch hp
    cases hch
  | succ n ih =>
    intro c rs starts p recs tr hch hp
    have happ : applyStart p c = p := by
      cases hc : c with
      | none => rfl
      | some s =>
        rw [hc] at hp
        exact setParam_of_lookup_eq hp
    unfold paginateLoop
    simp only [hserve, hp]
    rw [pageObj_results, pageObj_page]
    simp only [ok_bind, pure_bind_e]
    unfold chainFrom at hch
    cases hnx : (f c).2 with
    | none =>
      simp only [hnx] at hch ⊢
      injection hch with hch
      injection hch with hch1 hch2
      subst hch1
      subst hch2
      rw [show olookup ([] : Obj) (cs "next") = none from rfl]
      simp only []
      rw [List.map_cons, List.map_nil, happ]
    | some s =>
      simp only [hnx] at hch ⊢
      cases hch2 : chainFrom f n (some s) with
      | none =>
        rw [hch2] at hch
        cases hch
      | some pr =>
        obtain ⟨rs2, starts2⟩ := pr
        rw [hch2] at hch
        injection hch with hch
        injection hch with hch1 hch2e
        subst hch1
        subst hch2e
        rw [show olookup [(cs "next", JVal.str s)] (cs "next") = some (.str s) from rfl]
        simp only []
        rw [ih (some s) rs2 starts2 (setParam p (cs "start") s) _ _
          hch2 (lookupParam_setParam_self p _ s)]
        have hmap : starts2.map (fun st =>
            ({ method := "GET", path := path, accept := accept,
               params := applyStart (setParam p (cs "start") s) st,
               jsonBody := none } : Request))
          = starts2.map (fun st =>
            ({ method := "GET", path := path, accept := accept,
               params := applyStart p st, jsonBody := none } : Request)) := by
          apply List.map_congr_left
          intro st hst
          have hsome := chain_starts_some f n s rs2 starts2 hch2 st hst
          cases st with
          | none => cases hsome
          | some s2 =>
            show ({ method := "GET", path := path, accept := accept,
                    params := setParam (setParam p (cs "start") s) (cs "start") s2,
                    jsonBody := none } : Request) = _
            rw [setParam_setParam]
            rfl
        rw [List.map_cons, happ, hmap]
        rw [List.append_assoc, List.append_assoc]
        rfl

theorem paginate_chain (serve : Serve) (f : PageFun) (fuel : Nat) (ct : Container)
    (rt : ResourceType) (full : Bool) (query : List (List Char × List Char))
    (rs : List JVal) (starts : List (Option (List Char)))
    (hserve : ∀ params, serve params = pageObj (f (lookupParam params (cs "start"))))
    (hch : chainFrom f fuel none = some (rs, starts)) :
    paginate serve fuel ct rt full query = .ok (rs, starts.map (fun st =>
      { method := "GET", path := get_resource_path ct rt none,
        accept := get_accept_header (if full then some (cs "full") else none) none,
        params := applyStart (mkParams query) st, jsonBody := none })) := by
  unfold paginate
  rw [pagLoop_chain serve _ _ f hserve fuel none rs starts (mkParams query) [] []
    hch (lookupParam_mkParams_start query)]
  rw [List.nil_append]
  rfl

theorem expectedPair_inv (tbl : Table) (f : ResourceType → Container → PageFun)
    (fuel : Nat) (full : Bool) (query : List (List Char × List Char))
    (rt : ResourceType) (ct : Container) (out : List Resource × List Request)
    (h : expectedPair tbl f fuel full query (rt, ct) = .ok out) :
    ∃ rs starts, chainFrom (f rt ct) fuel none = some (rs, starts)
      ∧ rs.mapM (Resource.ofDict tbl rt) = .ok out.1
      ∧ out.2 = starts.map (fun st =>
          { method := "GET", path := get_resource_path ct rt none,
            accept := get_accept_header (if full then some (cs "full") else none) none,
            params := applyStart (mkParams query) st, jsonBody := none }) := by
  unfold expectedPair at h
  cases hch : chainFrom (f rt ct) fuel none with
  | none =>
    rw [hch] at h
    cases h
  | some pr =>
    obtain ⟨rs, starts⟩ := pr
    rw [hch] at h
    simp only [] at h
    cases hmap : rs.mapM (Resource.ofDict tbl rt) with
    | error e =>
      rw [hmap] at h
      cases h
    | ok ws =>
      rw [hmap, ok_bind] at h
      injection h with h
      refine ⟨rs, starts, rfl, ?_, ?_⟩
      · rw [hmap, ← h]
      · rw [← h]

theorem findallGo2_spec (tbl : Table) (serveF : ResourceType → Container → Serve)
    (f : ResourceType → Container → PageFun) (fuel : Nat) (full : Bool)
    (query : List (List Char × List Char)) (rt : ResourceType)
    (hserve : ∀ rt2 ct params, serveF rt2 ct params =
      pageObj (f rt2 ct (lookupParam params (cs "start")))) :
    ∀ (cts : List Container) (acc : List Resource) (tr : List Request)
      (outs : List (List Resource × List Request)),
      expectedAll tbl f fuel full query (cts.map (fun ct => (rt, ct))) = .ok outs →
      findallGo2 tbl serveF fuel full query rt cts acc tr =
        .ok (acc ++ (outs.map Prod.fst).flatten, tr ++ (outs.map Prod.snd).flatten) := by
  intro cts
  induction cts with
  | nil =>
    intro acc tr outs h
    injection h with h
    subst h
    simp [findallGo2]
  | cons ct rest ih =>
    intro acc tr outs h
    rw [List.map_cons] at h
    unfold expectedAll at h
    cases ho : expectedPair tbl f fuel full query (rt, ct) with
    | error e =>
      rw [ho] at h
      cases h
    | ok out =>
      rw [ho, ok_bind] at h
      cases hos : expectedAll tbl f fuel full query (rest.map (fun ct => (rt, ct))) with
      | error e =>
        rw [hos] at h
        cases h
      | ok os =>
        rw [hos, ok_bind] at h
        injection h with h
        subst h
        obtain ⟨rs, starts, hch, hmap, htr⟩ :=
          expectedPair_inv tbl f fuel full query rt ct out ho
        unfold findallGo2
        rw [paginate_chain (serveF rt ct) (f rt ct) fuel ct rt full query rs starts
          (hserve rt ct) hch, ok_bind]
        simp only []
        rw [hmap, ok_bind]
        rw [ih (acc ++ out.1) (tr ++ starts.map _) os hos]
        rw [← htr]
        simp [List.append_assoc]

theorem expectedAll_append (tbl : Table) (f : ResourceType → Container → PageFun)
    (fuel : Nat) (full : Bool) (query : List (List Char × List Char)) :
    ∀ (l1 l2 : List (ResourceType × Container))
      (outs : List (List Resource × List Request)),
      expectedAll tbl f fuel full query (l1 ++ l2) = .ok outs →
      ∃ o1 o2, expectedAll tbl f fuel full query l1 = .ok o1
        ∧ expectedAll tbl f fuel full query l2 = .ok o2 ∧ outs = o1 ++ o2 := by
  intro l1
  induction l1 with
  | nil =>
    intro l2 outs h
    exact ⟨[], outs, rfl, h, rfl⟩
  | cons p rest ih =>
    intro l2 outs h
    rw [List.cons_append] at h
    unfold expectedAll at h
    cases ho : expectedPair tbl f fuel full query p with
    | error e =>
      rw [ho] at h
      cases h
    | ok o =>
      rw [ho, ok_bind] at h
      cases hos : expectedAll tbl f fuel full query (rest ++ l2) with
      | error e =>
        rw [hos] at h
        cases h
      | ok os =>
        rw [hos, ok_bind] at h
        injection h with h
        subst h
        obtain ⟨o1, o2, h1, h2, hos2⟩ := ih l2 os hos
        subst hos2
        refine ⟨o :: o1, o2, ?_, h2, rfl⟩
        unfold expectedAll
        rw [ho, ok_bind, h1, ok_bind]

theorem findallGo1_spec (tbl : Table) (serveF : ResourceType → Container → Serve)
    (f : ResourceType → Container → PageFun) (fuel : Nat) (full : Bool)
    (query : List (List Char × List Char)) (cts : List Container)
    (hserve : ∀ rt2 ct params, serveF rt2 ct params =
      pageObj (f rt2 ct (lookupParam params (cs "start")))) :
    ∀ (rts : List ResourceType) (acc : List Resource) (tr : List Request)
      (outs : List (List Resource × List Request)),
      expectedAll tbl f fuel full query
        ((rts.map (fun rt => cts.map (fun ct => (rt, ct)))).flatten) = .ok outs →
      findallGo1 tbl serveF fuel full query cts rts acc tr =
        .ok (acc ++ (outs.map Prod.fst).flatten, tr ++ (outs.map Prod.snd).flatten) := by
  intro rts
  induction rts with
  | nil =>
    intro acc tr outs h
    injection h with h
    subst h
    simp [findallGo1]
  | cons rt rest ih =>
    intro acc tr outs h
    rw [List.map_cons, List.flatten_cons] at h
    obtain ⟨o1, o2, h1, h2, ho⟩ := expectedAll_append tbl f fuel full query _ _ outs h
    subst ho
    unfold findallGo1
    rw [findallGo2_spec tbl serveF f fuel full query rt hserve cts acc tr o1 h1, ok_bind]
    simp only []
    rw [ih (acc ++ (o1.map Prod.fst).flatten) (tr ++ (o1.map Prod.snd).flatten) o2 h2]
    simp [List.append_assoc]

/-- Claim C3: when the server answers each listing request with the page
selected by the `start` cursor, `findall` follows the cursor chain for
every allowed kind and every container in scope, carrying the comma-
joined property filter and the evolving `start` parameter, and returns
the concatenation of all pages' records in page order per (kind,
container) pair, wrapped as typed resources; distinct cursors are never
reused as `start` values. -/
theorem C3_findall_paginate
    (tbl : Table) (serveF : ResourceType → Container → Serve) (fuel : Nat)
    (c : ResourceCollection) (full : Bool) (query : List (List Char × List Char))
    (f : ResourceType → Container → PageFun)
    (outs : List (List Resource × List Request))
    (hserve : ∀ rt ct params, serveF rt ct params =
      pageObj (f rt ct (lookupParam params (cs "start"))))
    (houts : expectedAll tbl f fuel full query (collPairs c) = .ok outs) :
    findall tbl serveF fuel c full query =
      .ok ((outs.map Prod.fst).flatten, (outs.map Prod.snd).flatten)
    ∧ (∀ rt ct rs starts, chainFrom (f rt ct) fuel none = some (rs, starts) →
        starts.Nodup → (starts.map (applyStart (mkParams query))).Nodup) := by
  constructor
  · unfold findall
    have h := findallGo1_spec tbl serveF f fuel full query c.containers hserve
      c.resources [] [] outs houts
    simpa using h
  · intro rt ct rs starts hch hnd
    refine hnd.map ?_
    intro a b hab
    have ha := lookupParam_applyStart (mkParams query) (lookupParam_mkParams_start query) a
    have hb := lookupParam_applyStart (mkParams query) (lookupParam_mkParams_start query) b
    rw [← ha, ← hb, hab]

/-- Witness for C3: a 3-page cursor-linked mock listing with page sizes
2, 2, 1 yields all five records in page order, one request per page,
with `start` values absent, c1, c2 — none reused. -/
theorem C3_w :
    findall [] serveW 3 collW false [] =
      .ok ((outsW.map Prod.fst).flatten, (outsW.map Prod.snd).flatten)
    ∧ ((outsW.map Prod.fst).flatten).length = 5
    ∧ ((outsW.map Prod.snd).flatten).map (fun rq => lookupParam rq.params (cs "start"))
        = [none, some (cs "c1"), some (cs "c2")]
    ∧ (((outsW.map Prod.fst).flatten).map (fun r => r.uuid))
        = [cs "u1", cs "u2", cs "u3", cs "u4", cs "u5"] := by
  have h := C3_findall_paginate [] serveW 3 collW false [] fW outsW
    (fun _ _ _ => rfl) (by rfl)
  exact ⟨h.1, by rfl, by rfl, by rfl⟩

end Aezpz
